import Mathlib

/-!
Shallow embedding of `src/arblockstore.py` (ArBlockStore): a command-line
utility that stores blocks of a Bitcoin-like blockchain into Arweave
("write" mode) and replays them back into a node ("read" mode).

External collaborators (the JSON-RPC blockchain daemon, the Arweave
library and wallet) are modelled as oracles: records of functions giving
the responses the program would observe.  Pure computations of the
source (hex encoding/decoding, argument validation, tag construction,
the pending-queue sweep, the read loop body) are translated directly.
-/

namespace ArBlockStore

/-- Python exception values that the translated code can raise. -/
inductive PyErr where
  | nameError (n : String)
  | valueError (m : String)
  | rpcError (m : String)
  deriving DecidableEq

/-! ### Hex encoding and decoding (`binascii.unhexlify`, `bytes.hex`) -/

/-- Value of a single hexadecimal digit character, if any. -/
def hexVal (c : Char) : Option Nat :=
  if '0' ≤ c ∧ c ≤ '9' then some (c.toNat - '0'.toNat)
  else if 'a' ≤ c ∧ c ≤ 'f' then some (c.toNat - 'a'.toNat + 10)
  else if 'A' ≤ c ∧ c ≤ 'F' then some (c.toNat - 'A'.toNat + 10)
  else none

/-- Decoding of a list of hex characters into bytes, as
`binascii.unhexlify` does: fails on odd length or a non-hex digit. -/
def unhexlifyChars : List Char → Except PyErr (List Nat)
  | [] => .ok []
  | [_] => .error (.valueError "Odd-length string")
  | a :: b :: rest =>
    match hexVal a, hexVal b with
    | some x, some y =>
      match unhexlifyChars rest with
      | .ok bs => .ok ((16 * x + y) :: bs)
      | .error e => .error e
    | _, _ => .error (.valueError "Non-hexadecimal digit found")

/-- Model of `binascii.unhexlify` on a Python string. -/
def unhexlify (s : String) : Except PyErr (List Nat) :=
  unhexlifyChars s.data

/-- Lower-case hex digit for a value below 16. -/
def hexChar (n : Nat) : Char :=
  if n < 10 then Char.ofNat ('0'.toNat + n)
  else Char.ofNat ('a'.toNat + (n - 10))

/-- Two hex digits of one byte. -/
def byteHex (b : Nat) : List Char :=
  [hexChar (b / 16 % 16), hexChar (b % 16)]

/-- Model of Python `bytes.hex()`: lower-case hex string of a byte list. -/
def hexlify (bs : List Nat) : String :=
  ⟨(bs.map byteHex).flatten⟩

/-! ### Module-level constants (lines 22-28 of the source) -/

def APP_NAME : String := "ArBlockStore"

def APP_VERSION : String := "1.0"

/-- Module-level sentinel gating read-mode confirmation checks
(line 28 of the source: `MIN_READ_CONFIRMATIONS = None`). -/
def MIN_READ_CONFIRMATIONS : Option Int := none

/-! ### Parsed command-line arguments (`parseArgs`, lines 272-318) -/

/-- The argparse namespace produced by `parseArgs`. -/
structure Args where
  action : String
  blockchain : String
  rpc : String
  wallet : String
  address : Option String
  fromHeight : Int
  toHeight : Int
  pending_queue : Int
  deriving DecidableEq

/-- Python truthiness of an optional string (`if args.address:`):
`None` and the empty string are falsy. -/
def optStrTruthy : Option String → Bool
  | none => false
  | some s => s ≠ ""

/-- The validation block of `parseArgs` (lines 301-316): the final value
of the local `valid` flag.  If it is `false`, the program prints usage
and exits before doing any work. -/
def parseArgsValid (a : Args) : Bool :=
  let valid := true
  let valid := if a.fromHeight < -1 then false else valid
  let valid := if a.toHeight ≠ -1 ∧ a.fromHeight > a.toHeight then false else valid
  let valid :=
    if a.action = "write" then
      let valid := if optStrTruthy a.address then false else valid
      let valid := if a.fromHeight = -1 ∨ a.toHeight = -1 then false else valid
      valid
    else valid
  valid

/-- The `__main__` dispatch (lines 321-332): after `parseArgs` (which
exits unless `valid`), the `write` action reaches `performWrite`, which
calls `writeRange`.  This predicate says whether a run with the given
arguments enters `writeRange`. -/
def mainEntersWriteRange (a : Args) : Bool :=
  parseArgsValid a && (a.action = "write")

/-! ### Arweave transactions and the write-side oracles -/

/-- Observable state of an `arweave.Transaction` object as the program
builds it: payload bytes, tag list (in `add_tag` order), the id
assigned at signing, and whether `sign` has run. -/
structure ATransaction where
  id : String
  data : List Nat
  tags : List (String × String)
  signed : Bool
  deriving DecidableEq

/-- The only field of `getblockheader`'s result that the program reads. -/
structure Header where
  previousblockhash : String
  deriving DecidableEq

/-- Oracle for the blockchain daemon's RPC methods used while writing. -/
structure RpcEnv where
  getblockhash : Int → Except PyErr String
  getblockheader : String → Except PyErr Header
  getblock : String → Nat → Except PyErr String

/-- Oracle for the wallet-dependent part of `tx.sign()`: the id that
signing assigns, as a function of the payload and tags. -/
structure WalletEnv where
  signId : List Nat → List (String × String) → String

/-- Model of `tx.sign()`: assigns the id and marks the tx signed. -/
def sign (w : WalletEnv) (tx : ATransaction) : ATransaction :=
  { tx with id := w.signId tx.data tx.tags, signed := true }

/-- Tag list built by the `add_tag` calls of `generateTransactions`
(lines 126-132), in source order. -/
def addTags (blockchain : String) (h : Int) (blkHash previousblockhash : String) :
    List (String × String) :=
  [("App-Name", APP_NAME), ("App-Version", APP_VERSION), ("Blockchain", blockchain),
   ("Block-Height", toString h), ("Block-Hash", blkHash)] ++
  (if 0 < h then [("Previous-Hash", previousblockhash)] else [])

/-- Body of `BlockWriter.generateTransactions` for one height `h`
(lines 119-135).  `gargs` is the module-level global `args` (the
`Blockchain` tag reads `args.blockchain` from that global, line 128);
`none` means the global is undefined, raising a `NameError`. -/
def genTxAt (rpc : RpcEnv) (w : WalletEnv) (gargs : Option Args) (h : Int) :
    Except PyErr (ATransaction × Int) :=
  match rpc.getblockhash h with
  | .error e => .error e
  | .ok blkHash =>
    match rpc.getblockheader blkHash with
    | .error e => .error e
    | .ok hdr =>
      match rpc.getblock blkHash 0 with
      | .error e => .error e
      | .ok blkhex =>
        match unhexlify blkhex with
        | .error e => .error e
        | .ok blk =>
          match gargs with
          | none => .error (.nameError "args")
          | some a =>
            .ok (sign w { id := "", data := blk,
                          tags := addTags a.blockchain h blkHash hdr.previousblockhash,
                          signed := false }, h)

/-- Python `range(a, b)` over integers: `a, a+1, ...` of length
`max (b - a) 0`, by fuel. -/
def pyRangeAux (a : Int) : Nat → List Int
  | 0 => []
  | n + 1 => a :: pyRangeAux (a + 1) n

/-- Python `range(a, b)`. -/
def pyRange (a b : Int) : List Int :=
  pyRangeAux a (b - a).toNat

/-- Runs `genTxAt` over a list of heights, collecting the yielded pairs
until the first error: the extensional content of the Python generator.
Returns the yielded prefix and the error that aborted it, if any. -/
def genList (rpc : RpcEnv) (w : WalletEnv) (gargs : Option Args) :
    List Int → List (ATransaction × Int) × Option PyErr
  | [] => ([], none)
  | h :: rest =>
    match genTxAt rpc w gargs h with
    | .error e => ([], some e)
    | .ok p =>
      ((p :: (genList rpc w gargs rest).1), (genList rpc w gargs rest).2)

/-- Model of `BlockWriter.generateTransactions (fromHeight, toHeight)`:
iterates `for h in range (fromHeight, toHeight + 1)`. -/
def generateTransactions (rpc : RpcEnv) (w : WalletEnv) (gargs : Option Args)
    (fromHeight toHeight : Int) : List (ATransaction × Int) × Option PyErr :=
  genList rpc w gargs (pyRange fromHeight (toHeight + 1))

/-! ### The pending queue and `checkPendings` (lines 137-166) -/

/-- Entry of `self.pending`: `(txid, transaction object, height)`. -/
abbrev PEntry := String × ATransaction × Int

/-- Status reported by `tx.get_status ()`: either the string
`"PENDING"` or a dict carrying `number_of_confirmations`. -/
inductive TxStatus where
  | strPENDING
  | data (number_of_confirmations : Int)
  deriving DecidableEq

/-- Oracle for one polling sweep: the status the backend reports for
each txid (this covers the `get_transaction`/`get_status` round trip;
a transport failure there would propagate uncaught and simply end the
run, which none of the claims concern). -/
structure PollEnv where
  statusOf : String → TxStatus

/-- The failure of the `assert status["number_of_confirmations"] >= 1`
on line 160, carrying the offending txid. -/
structure AssertionError where
  txid : String
  deriving DecidableEq

/-- Model of `BlockWriter.checkPendings` (lines 137-166).  First
component: the txids re-sent (`oldTx.send ()` on line 153), in order,
including those sent before a possible assertion failure.  Second
component: the new `self.pending` assigned on line 163, or the
assertion failure that aborted the sweep (in which case `self.pending`
is left unchanged and the process dies). -/
def checkPendings (env : PollEnv) :
    List PEntry → List String × Except AssertionError (List PEntry)
  | [] => ([], .ok [])
  | (txid, oldTx, h) :: rest =>
    match env.statusOf txid with
    | .strPENDING =>
      (txid :: (checkPendings env rest).1,
       ((checkPendings env rest).2).map (fun np => (txid, oldTx, h) :: np))
    | .data n =>
      if 1 ≤ n then checkPendings env rest
      else ([], .error ⟨txid⟩)

/-- Whether an entry's status reads as the string `"PENDING"`. -/
def isPendingStatus (env : PollEnv) (e : PEntry) : Bool :=
  match env.statusOf e.1 with
  | .strPENDING => true
  | .data _ => false

/-! ### `writeRange` as a transition system (lines 168-190) -/

/-- Configuration of the `writeRange` loop: the unconsumed suffix of
the generator (lookup failures would truncate the run and with it the
trace, so a plain list suffices for safety properties), the `moreTx`
flag, and `self.pending`. -/
structure WConfig where
  gen : List (ATransaction × Int)
  moreTx : Bool
  pending : List PEntry
  deriving DecidableEq

/-- One observable step of `writeRange (fromHeight, toHeight, queueSize)`:
`send` is one pass of the inner `while` body that pulls a transaction,
sends it and appends it to `self.pending` (lines 180-185, guarded by
`len (self.pending) < queueSize`); `exhaust` is the `StopIteration`
branch (lines 186-187); `poll` is the `time.sleep` / `checkPendings`
tail of the outer loop (lines 189-190), enabled only once the inner
loop's condition has failed.  The poll's status oracle is chosen fresh
at each step, since the backend may answer differently each sweep. -/
inductive WStep (queueSize : Int) : WConfig → WConfig → Prop where
  | send (tx : ATransaction) (h : Int) (rest : List (ATransaction × Int))
      (pending : List PEntry) :
      (pending.length : Int) < queueSize →
      WStep queueSize ⟨(tx, h) :: rest, true, pending⟩
        ⟨rest, true, pending ++ [(tx.id, tx, h)]⟩
  | exhaust (pending : List PEntry) :
      WStep queueSize ⟨[], true, pending⟩ ⟨[], false, pending⟩
  | poll (env : PollEnv) (gen : List (ATransaction × Int)) (moreTx : Bool)
      (pending np : List PEntry) :
      ¬(moreTx = true ∧ (pending.length : Int) < queueSize) →
      (checkPendings env pending).2 = .ok np →
      WStep queueSize ⟨gen, moreTx, pending⟩ ⟨gen, moreTx, np⟩

/-- Initial configuration of `writeRange`: `moreTx = True` (line 176)
and `self.pending = []` (the fresh `BlockWriter` of `performWrite`,
lines 111 and 200). -/
def writeInit (gen : List (ATransaction × Int)) : WConfig :=
  ⟨gen, true, []⟩

/-- Iterated polling: runs `checkPendings` `n` times starting from a
pending list, with a possibly different status oracle at each sweep.
Returns the final pending list and the concatenation of all re-sent
txids, or `none` if some sweep hit the assertion failure. -/
def pollTrace : (Nat → PollEnv) → Nat → List PEntry → Option (List PEntry × List String)
  | _, 0, pending => some (pending, [])
  | envs, n + 1, pending =>
    match (checkPendings (envs 0) pending).2 with
    | .error _ => none
    | .ok np =>
      match pollTrace (fun i => envs (i + 1)) n np with
      | none => none
      | some (fp, sent) => some (fp, (checkPendings (envs 0) pending).1 ++ sent)

/-! ### The read loop (`performRead`, lines 204-250) -/

/-- The data of a transaction fetched while reading. -/
structure FetchedTx where
  data : List Nat
  deriving DecidableEq

/-- Oracle for one iteration of the read loop: the txids the tag query
returns, the result of fetching each candidate
(`get_transaction`/`get_data`), each candidate's status, the result of
`submitblock`, and the block count the node reports at the end of the
iteration. -/
structure REnv where
  queryTxidsForBlock : Int → List String
  fetchTx : String → Except PyErr FetchedTx
  get_status : String → TxStatus
  submitblock : String → Except PyErr Unit
  getblockcount : Int

/-- Observable events of processing one read candidate. -/
inductive REvent where
  | fetchFailed (txid : String)
  | statusQueried (txid : String)
  | statusSkipped (txid : String)
  | submitCalled (txid : String) (payload : String)
  | submitFailed (txid : String)
  deriving DecidableEq

/-- Body of the `for i in txids` loop of `performRead` (lines 220-242)
for one candidate `i`, with `minConf` standing for the module global
`MIN_READ_CONFIRMATIONS`: fetch errors are caught and skip the
candidate; the confirmation gate runs only when `minConf` is set;
submit errors are caught and logged. -/
def processCandidate (env : REnv) (minConf : Option Int) (i : String) : List REvent :=
  match env.fetchTx i with
  | .error _ => [.fetchFailed i]
  | .ok tx =>
    match minConf with
    | none =>
      (match env.submitblock (hexlify tx.data) with
       | .ok _ => [.submitCalled i (hexlify tx.data)]
       | .error _ => [.submitCalled i (hexlify tx.data), .submitFailed i])
    | some m =>
      match env.get_status i with
      | .strPENDING => [.statusQueried i, .statusSkipped i]
      | .data n =>
        if n < m then [.statusQueried i, .statusSkipped i]
        else
          .statusQueried i ::
          (match env.submitblock (hexlify tx.data) with
           | .ok _ => [.submitCalled i (hexlify tx.data)]
           | .error _ => [.submitCalled i (hexlify tx.data), .submitFailed i])

/-- The whole `for i in txids` sweep, concatenating each candidate's
events in order. -/
def readCandidates (env : REnv) (minConf : Option Int) : List String → List REvent
  | [] => []
  | i :: rest => processCandidate env minConf i ++ readCandidates env minConf rest

/-- One iteration of the `while` loop of `performRead` for height `h`
(lines 217-250): process the candidates, then advance to `h + 1` when
`rpc.getblockcount () >= h` and otherwise log an error and return. -/
def readIteration (env : REnv) (h : Int) : List REvent × Option Int :=
  (readCandidates env MIN_READ_CONFIRMATIONS (env.queryTxidsForBlock h),
   if env.getblockcount ≥ h then some (h + 1) else none)

/-! ### Concrete fixtures used by the witnesses -/

/-- A concrete transaction object. -/
def sampleTx : ATransaction := ⟨"tx0", [0], [], true⟩

/-- A polling oracle that reports one confirmation for every txid. -/
def envAllConfirmed : PollEnv := ⟨fun _ => .data 1⟩

/-- A polling oracle that reports the string status for every txid. -/
def envAllPending : PollEnv := ⟨fun _ => .strPENDING⟩

/-- A concrete write-mode argument vector. -/
def sampleArgs : Args :=
  ⟨"write", "testcoin", "http://127.0.0.1:8332", "wallet.json", none, 1, 1, 100⟩

/-- A write-mode argument vector with a zero pending-queue capacity. -/
def zeroQueueArgs : Args :=
  { sampleArgs with fromHeight := 0, toHeight := 0, pending_queue := 0 }

/-- A concrete write-side RPC oracle. -/
def sampleRpc : RpcEnv :=
  ⟨fun _ => .ok "00ff", fun _ => .ok ⟨"prevhash"⟩, fun _ _ => .ok "00ff"⟩

/-- A concrete wallet oracle. -/
def sampleWallet : WalletEnv := ⟨fun _ _ => "signed-id"⟩

/-- The transaction `genTxAt` builds from `sampleRpc`, `sampleWallet`
and `sampleArgs` at height 1. -/
def sampleGenTx : ATransaction :=
  ⟨"signed-id", [0, 255], addTags "testcoin" 1 "00ff" "prevhash", true⟩

/-- A concrete fetched read candidate. -/
def sampleFetched : FetchedTx := ⟨[0, 255]⟩

/-- A concrete read-side oracle whose calls all succeed. -/
def sampleREnv : REnv :=
  ⟨fun _ => ["t1"], fun _ => .ok sampleFetched, fun _ => .data 5, fun _ => .ok (), 3⟩

/-- Read oracle whose node reports block count 7. -/
def readEnvHigh : REnv := { sampleREnv with getblockcount := 7 }

/-- Read oracle whose node reports block count 3. -/
def readEnvLow : REnv := { sampleREnv with getblockcount := 3 }

/-- Read oracle whose candidate fetches fail. -/
def readEnvFetchErr : REnv :=
  { sampleREnv with fetchTx := fun _ => .error (.rpcError "lookup failed") }

/-- Read oracle whose block submissions fail. -/
def readEnvSubmitErr : REnv :=
  { sampleREnv with submitblock := fun _ => .error (.rpcError "rejected") }

/-! ### Lemmas about `checkPendings` -/

/-- When a sweep completes without an assertion failure, the new
pending list is exactly the old one filtered to the entries whose
status still reads `"PENDING"`. -/
theorem checkPendings_ok_filter (env : PollEnv) (pending : List PEntry) :
    ∀ np, (checkPendings env pending).2 = .ok np →
      np = pending.filter (isPendingStatus env) := by
  induction pending with
  | nil =>
    intro np hok
    simp only [checkPendings] at hok
    cases hok
    rfl
  | cons e rest ih =>
    obtain ⟨txid, oldTx, h⟩ := e
    intro np hok
    rcases hs : env.statusOf txid with _ | n
    · simp only [checkPendings, hs] at hok
      rcases h2 : (checkPendings env rest).2 with e2 | np2 <;> rw [h2] at hok
      · simp [Except.map] at hok
      · simp only [Except.map, Except.ok.injEq] at hok
        cases hok
        simp only [List.filter_cons]
        have hp : isPendingStatus env (txid, oldTx, h) = true := by
          simp [isPendingStatus, hs]
        rw [hp]
        simp [ih np2 h2]
    · simp only [checkPendings, hs] at hok
      by_cases hn : 1 ≤ n
      · rw [if_pos hn] at hok
        have hp : isPendingStatus env (txid, oldTx, h) = false := by
          simp [isPendingStatus, hs]
        simp only [List.filter_cons, hp]
        simpa using ih np hok
      · rw [if_neg hn] at hok
        simp at hok

/-- On a completed sweep, the txids re-sent are exactly those of the
entries retained, in order. -/
theorem checkPendings_sent_ok (env : PollEnv) (pending : List PEntry) :
    ∀ np, (checkPendings env pending).2 = .ok np →
      (checkPendings env pending).1 = np.map (fun p => p.1) := by
  induction pending with
  | nil =>
    intro np hok
    simp only [checkPendings] at hok ⊢
    cases hok
    rfl
  | cons e rest ih =>
    obtain ⟨txid, oldTx, h⟩ := e
    intro np hok
    rcases hs : env.statusOf txid with _ | n
    · simp only [checkPendings, hs] at hok ⊢
      rcases h2 : (checkPendings env rest).2 with e2 | np2 <;> rw [h2] at hok
      · simp [Except.map] at hok
      · simp only [Except.map, Except.ok.injEq] at hok
        cases hok
        simp [ih np2 h2]
    · simp only [checkPendings, hs] at hok ⊢
      by_cases hn : 1 ≤ n
      · rw [if_pos hn] at hok ⊢
        exact ih np hok
      · rw [if_neg hn] at hok
        simp at hok

/-- Under the precondition that every dict status carries at least one
confirmation, the sweep always completes and returns the filter. -/
theorem checkPendings_ok_of_conf (env : PollEnv)
    (hconf : ∀ t n, env.statusOf t = .data n → 1 ≤ n) (pending : List PEntry) :
    (checkPendings env pending).2 = .ok (pending.filter (isPendingStatus env)) := by
  induction pending with
  | nil => simp [checkPendings]
  | cons e rest ih =>
    obtain ⟨txid, oldTx, h⟩ := e
    rcases hs : env.statusOf txid with _ | n
    · have hp : isPendingStatus env (txid, oldTx, h) = true := by
        simp [isPendingStatus, hs]
      simp [checkPendings, hs, List.filter_cons, hp, ih, Except.map]
    · have hn := hconf txid n hs
      have hp : isPendingStatus env (txid, oldTx, h) = false := by
        simp [isPendingStatus, hs]
      simp [checkPendings, hs, if_pos hn, List.filter_cons, hp, ih]

/-- The retained list never grows across a completed sweep. -/
theorem checkPendings_ok_length_le (env : PollEnv) {pending np : List PEntry}
    (hok : (checkPendings env pending).2 = .ok np) : np.length ≤ pending.length := by
  rw [checkPendings_ok_filter env pending np hok]
  exact (List.filter_sublist pending).length_le

/-- On a completed sweep with unique txids, an entry whose status
reads `"PENDING"` is re-sent exactly once and retained, and the
retained txids form a sublist of the old ones. -/
theorem checkPendings_count_one (env : PollEnv) {pending np : List PEntry} {e : PEntry}
    (hok : (checkPendings env pending).2 = .ok np)
    (hnd : (pending.map (fun p => p.1)).Nodup)
    (hmem : e ∈ pending) (hp : env.statusOf e.1 = .strPENDING) :
    (checkPendings env pending).1.count e.1 = 1 ∧ e ∈ np ∧
    (np.map (fun p => p.1)).Sublist (pending.map (fun p => p.1)) := by
  have hf := checkPendings_ok_filter env pending np hok
  have hsent := checkPendings_sent_ok env pending np hok
  subst hf
  have hsub : ((pending.filter (isPendingStatus env)).map (fun p => p.1)).Sublist
      (pending.map (fun p => p.1)) := (List.filter_sublist pending).map _
  have hmemf : e ∈ pending.filter (isPendingStatus env) :=
    List.mem_filter.2 ⟨hmem, by simp [isPendingStatus, hp]⟩
  refine ⟨?_, hmemf, hsub⟩
  rw [hsent]
  have hnd2 : ((pending.filter (isPendingStatus env)).map (fun p => p.1)).Nodup :=
    hnd.sublist hsub
  exact List.count_eq_one_of_mem hnd2 (List.mem_map.2 ⟨e, hmemf, rfl⟩)

/-- C3: whenever `checkPendings` observes a status other than
`"PENDING"` for a pending entry, it asserts that the reported
`number_of_confirmations` is at least 1 (fatal assertion failure
otherwise) and removes that entry from the pending list, never
re-adding it on any later poll; under the precondition that every
non-pending status carries at least one confirmation, the
assertion-failure branch is unreachable (the sweep returns `.ok`). -/
theorem checkPendings_confirmed_removed (env : PollEnv) (pending : List PEntry)
    (hconf : ∀ t n, env.statusOf t = .data n → 1 ≤ n) :
    (checkPendings env pending).2 = .ok (pending.filter (isPendingStatus env)) ∧
    (∀ e ∈ pending, env.statusOf e.1 ≠ .strPENDING →
      e ∉ pending.filter (isPendingStatus env)) ∧
    (∀ (later np : List PEntry) (e : PEntry), e ∉ later →
      (checkPendings env later).2 = .ok np → e ∉ np) ∧
    (∀ (env2 : PollEnv) (t : String) (tx : ATransaction) (hh n : Int)
        (rest : List PEntry), env2.statusOf t = .data n → n < 1 →
      (checkPendings env2 ((t, tx, hh) :: rest)).2 = .error ⟨t⟩) := by
  refine ⟨checkPendings_ok_of_conf env hconf pending, ?_, ?_, ?_⟩
  · intro e _ hne hin
    rcases List.mem_filter.1 hin with ⟨_, hp⟩
    unfold isPendingStatus at hp
    rcases hs : env.statusOf e.1 with _ | n
    · exact hne hs
    · rw [hs] at hp
      simp at hp
  · intro later np e hnot hok
    have hfe := checkPendings_ok_filter env later np hok
    subst hfe
    exact fun hin => hnot (List.mem_of_mem_filter hin)
  · intro env2 t tx hh n rest hs hn
    simp [checkPendings, hs, if_neg (by omega : ¬ 1 ≤ n)]

/-- Witness for C3 at a concrete oracle and pending list. -/
theorem checkPendings_confirmed_removed_w :
    (checkPendings envAllConfirmed [("t0", sampleTx, 0)]).2 =
      .ok (([("t0", sampleTx, 0)] : List PEntry).filter (isPendingStatus envAllConfirmed)) ∧
    (∀ e ∈ ([("t0", sampleTx, 0)] : List PEntry),
      envAllConfirmed.statusOf e.1 ≠ .strPENDING →
      e ∉ ([("t0", sampleTx, 0)] : List PEntry).filter (isPendingStatus envAllConfirmed)) ∧
    (∀ (later np : List PEntry) (e : PEntry), e ∉ later →
      (checkPendings envAllConfirmed later).2 = .ok np → e ∉ np) ∧
    (∀ (env2 : PollEnv) (t : String) (tx : ATransaction) (hh n : Int)
        (rest : List PEntry), env2.statusOf t = .data n → n < 1 →
      (checkPendings env2 ((t, tx, hh) :: rest)).2 = .error ⟨t⟩) :=
  checkPendings_confirmed_removed envAllConfirmed [("t0", sampleTx, 0)]
    (by intro t n hsn; injection hsn with h1; omega)

/-! ### C1: the back-pressure bound of `writeRange` -/

/-- C1: for every execution of `writeRange (fromHeight, toHeight,
queueSize)` with `queueSize > 0`, at every observable instant the
number of in-flight entries `len (self.pending)` is at most
`queueSize`; in particular a step that grows the pending list (an
admission) happens only when `len (self.pending) < queueSize`. -/
theorem writeRange_queue_bound (queueSize : Int) (gen0 : List (ATransaction × Int))
    (c c' : WConfig) (hq : 0 < queueSize)
    (hr : Relation.ReflTransGen (WStep queueSize) (writeInit gen0) c) :
    (c.pending.length : Int) ≤ queueSize ∧
    (WStep queueSize c c' → c.pending.length < c'.pending.length →
      (c.pending.length : Int) < queueSize) := by
  have hinv : (c.pending.length : Int) ≤ queueSize := by
    induction hr with
    | refl => simpa [writeInit] using hq.le
    | tail hsteps hstep ih =>
      cases hstep with
      | send tx h rest pending hlt =>
        show (((pending ++ [(tx.id, tx, h)]).length : Nat) : Int) ≤ queueSize
        rw [List.length_append]
        push_cast
        simp only [List.length_cons, List.length_nil]
        omega
      | exhaust pending => exact ih
      | poll env gen moreTx pending np hguard hok =>
        have hle := checkPendings_ok_length_le env hok
        have hi : ((pending.length : Nat) : Int) ≤ queueSize := ih
        show ((np.length : Nat) : Int) ≤ queueSize
        omega
  refine ⟨hinv, ?_⟩
  intro hstep hgrow
  cases hstep with
  | send tx h rest pending hlt => exact hlt
  | exhaust pending =>
    exact absurd hgrow (lt_irrefl _)
  | poll env gen moreTx pending np hguard hok =>
    have hle := checkPendings_ok_length_le env hok
    have hg : pending.length < np.length := hgrow
    omega

/-- Witness for C1: with `queueSize = 1`, the configuration reached
from a one-element generator by a single admission step satisfies the
bound. -/
theorem writeRange_queue_bound_w :
    ((([("tx0", sampleTx, 0)] : List PEntry).length : Int) ≤ 1 ∧
      (WStep 1 ⟨[], true, [("tx0", sampleTx, 0)]⟩ ⟨[], true, [("tx0", sampleTx, 0)]⟩ →
        ([("tx0", sampleTx, 0)] : List PEntry).length <
          ([("tx0", sampleTx, 0)] : List PEntry).length →
        ((([("tx0", sampleTx, 0)] : List PEntry).length : Int) < 1))) :=
  writeRange_queue_bound 1 [(sampleTx, 0)] ⟨[], true, [("tx0", sampleTx, 0)]⟩
    ⟨[], true, [("tx0", sampleTx, 0)]⟩ (by decide)
    (Relation.ReflTransGen.single (WStep.send sampleTx 0 [] [] (by decide)))

/-! ### C4: the resend-per-poll policy -/

/-- Over `n` sweeps in which an entry's status always reads
`"PENDING"`, its txid is re-sent exactly `n` times and the entry is
retained, provided txids are unique and no sweep aborts. -/
theorem pollTrace_count (envs : Nat → PollEnv) (N : Nat) :
    ∀ (pending fp : List PEntry) (sent : List String) (e : PEntry),
      e ∈ pending →
      (pending.map (fun p => p.1)).Nodup →
      (∀ i, i < N → (envs i).statusOf e.1 = .strPENDING) →
      pollTrace envs N pending = some (fp, sent) →
      sent.count e.1 = N ∧ e ∈ fp := by
  induction N generalizing envs with
  | zero =>
    intro pending fp sent e hmem hnd hpend htr
    simp only [pollTrace, Option.some.injEq, Prod.mk.injEq] at htr
    obtain ⟨h1, h2⟩ := htr
    subst h1
    subst h2
    simpa using hmem
  | succ n ih =>
    intro pending fp sent e hmem hnd hpend htr
    rw [pollTrace] at htr
    split at htr
    · simp at htr
    · rename_i np h0
      split at htr
      · simp at htr
      · rename_i fp2 sent2 h1
        simp only [Option.some.injEq, Prod.mk.injEq] at htr
        obtain ⟨hfp, hsent⟩ := htr
        subst hfp
        subst hsent
        have hp0 : (envs 0).statusOf e.1 = .strPENDING := hpend 0 (by omega)
        obtain ⟨hcnt1, hmemnp, hsub⟩ :=
          checkPendings_count_one (envs 0) h0 hnd hmem hp0
        have hnd2 : (np.map (fun p => p.1)).Nodup := hnd.sublist hsub
        obtain ⟨hcnt2, hmemfp⟩ :=
          ih (fun i => envs (i + 1)) np fp2 sent2 e hmemnp hnd2
            (fun i hi => hpend (i + 1) (by omega)) h1
        refine ⟨?_, hmemfp⟩
        rw [List.count_append, hcnt1, hcnt2]
        omega

/-- C4: an entry whose status reads `"PENDING"` at a poll is re-sent
exactly once during that poll and retained; consequently an entry
whose status reads pending for `N` consecutive polls is re-sent
exactly `N` times. -/
theorem pending_resent_each_poll (env1 : PollEnv) (pending1 np1 : List PEntry)
    (e1 : PEntry) (envs : Nat → PollEnv) (N : Nat) (pending fp : List PEntry)
    (sent : List String) (e : PEntry)
    (h1ok : (checkPendings env1 pending1).2 = .ok np1)
    (h1nd : (pending1.map (fun p => p.1)).Nodup)
    (h1mem : e1 ∈ pending1) (h1p : env1.statusOf e1.1 = .strPENDING)
    (hmem : e ∈ pending) (hnd : (pending.map (fun p => p.1)).Nodup)
    (hpend : ∀ i, i < N → (envs i).statusOf e.1 = .strPENDING)
    (htr : pollTrace envs N pending = some (fp, sent)) :
    ((checkPendings env1 pending1).1.count e1.1 = 1 ∧ e1 ∈ np1) ∧
    (sent.count e.1 = N ∧ e ∈ fp) := by
  obtain ⟨hc1, hm1, _⟩ := checkPendings_count_one env1 h1ok h1nd h1mem h1p
  exact ⟨⟨hc1, hm1⟩, pollTrace_count envs N pending fp sent e hmem hnd hpend htr⟩

/-- Witness for C4 at a concrete oracle, two polls. -/
theorem pending_resent_each_poll_w :
    (((checkPendings envAllPending [("t0", sampleTx, 0)]).1.count "t0" = 1 ∧
      (("t0", sampleTx, 0) : PEntry) ∈ ([("t0", sampleTx, 0)] : List PEntry)) ∧
     ((["t0", "t0"] : List String).count "t0" = 2 ∧
      (("t0", sampleTx, 0) : PEntry) ∈ ([("t0", sampleTx, 0)] : List PEntry))) :=
  pending_resent_each_poll envAllPending [("t0", sampleTx, 0)] [("t0", sampleTx, 0)]
    ("t0", sampleTx, 0) (fun _ => envAllPending) 2 [("t0", sampleTx, 0)]
    [("t0", sampleTx, 0)] ["t0", "t0"] ("t0", sampleTx, 0)
    rfl (by simp) (List.mem_singleton.2 rfl) rfl
    (List.mem_singleton.2 rfl) (by simp) (fun i _ => rfl) rfl

/-! ### C2: `pending_queue` is not validated -/

/-- Counterexample to C2: the argument vector `action = "write"`,
`fromHeight = 0`, `toHeight = 0`, `pending_queue = 0` passes the
validation of `parseArgs` and the run enters `writeRange`, although
its pending-queue capacity is not positive. -/
theorem parseArgs_zero_queue_accepted :
    parseArgsValid zeroQueueArgs = true ∧
    mainEntersWriteRange zeroQueueArgs = true ∧
    zeroQueueArgs.pending_queue ≤ 0 :=
  ⟨by decide, by decide, by decide⟩

/-- C2 as amended: `parseArgs` performs no validation of
`pending_queue` at all — both the validity verdict and whether the run
enters `writeRange` are independent of its value, so a write-mode run
with `pending_queue ≤ 0` and otherwise valid bounds is accepted. -/
theorem parseArgs_ignores_pending_queue (a : Args) (q : Int) :
    parseArgsValid { a with pending_queue := q } = parseArgsValid a ∧
    mainEntersWriteRange { a with pending_queue := q } = mainEntersWriteRange a :=
  ⟨rfl, rfl⟩

/-! ### C7: the read loop's advance condition -/

/-- C7: in read mode, after processing all candidate transactions for
height `h`, the loop advances to `h + 1` if and only if the node's
reported block count is at least `h`; if it is below `h`, the read
operation stops. -/
theorem readIteration_advance (env : REnv) (h : Int) :
    ((readIteration env h).2 = some (h + 1) ↔ env.getblockcount ≥ h) ∧
    (env.getblockcount < h → (readIteration env h).2 = none) := by
  constructor
  · constructor
    · intro hs
      by_contra hlt
      simp [readIteration, if_neg hlt] at hs
    · intro hge
      simp [readIteration, if_pos hge]
  · intro hlt
    have hn : ¬ env.getblockcount ≥ h := by omega
    simp [readIteration, if_neg hn]

/-- Witness for C7 at concrete block counts 3 and 7 against height 5. -/
theorem readIteration_advance_w :
    (readIteration readEnvLow 5).2 = none ∧
    (readIteration readEnvHigh 5).2 = some 6 :=
  ⟨(readIteration_advance readEnvLow 5).2 (by decide),
   (readIteration_advance readEnvHigh 5).1.mpr (by decide)⟩

/-! ### C8: the confirmation gate of read mode is inert -/

/-- C8: with the module-level sentinel `MIN_READ_CONFIRMATIONS` equal
to `None`, read mode never queries a candidate transaction's
confirmation status and submits every successfully fetched candidate,
regardless of any status the backend would report. -/
theorem min_read_confirmations_inert (env : REnv) (i : String) (tx : FetchedTx)
    (hfetch : env.fetchTx i = .ok tx) :
    MIN_READ_CONFIRMATIONS = none ∧
    (∀ t, REvent.statusQueried t ∉ processCandidate env MIN_READ_CONFIRMATIONS i) ∧
    REvent.submitCalled i (hexlify tx.data) ∈
      processCandidate env MIN_READ_CONFIRMATIONS i := by
  refine ⟨rfl, ?_, ?_⟩
  · intro t
    simp only [MIN_READ_CONFIRMATIONS, processCandidate, hfetch]
    rcases hsb : env.submitblock (hexlify tx.data) with e | u <;> simp [hsb]
  · simp only [MIN_READ_CONFIRMATIONS, processCandidate, hfetch]
    rcases hsb : env.submitblock (hexlify tx.data) with e | u <;> simp [hsb]

/-- Witness for C8 at a concrete read oracle. -/
theorem min_read_confirmations_inert_w :
    MIN_READ_CONFIRMATIONS = none ∧
    (∀ t, REvent.statusQueried t ∉ processCandidate sampleREnv MIN_READ_CONFIRMATIONS "t1") ∧
    REvent.submitCalled "t1" (hexlify sampleFetched.data) ∈
      processCandidate sampleREnv MIN_READ_CONFIRMATIONS "t1" :=
  min_read_confirmations_inert sampleREnv "t1" sampleFetched rfl

/-! ### C9: per-candidate read errors skip only that candidate -/

/-- C9: an exception while fetching a candidate or submitting its
block is caught: a failed fetch contributes only a fetch-failure
event and no submission, a failed submission only a logged failure,
and in both cases the remaining candidates of the height are still
processed (the sweep splits around the failing candidate). -/
theorem read_candidate_error_isolated (env : REnv) (pre post : List String)
    (i : String) :
    readCandidates env MIN_READ_CONFIRMATIONS (pre ++ i :: post) =
      readCandidates env MIN_READ_CONFIRMATIONS pre ++
      processCandidate env MIN_READ_CONFIRMATIONS i ++
      readCandidates env MIN_READ_CONFIRMATIONS post ∧
    (∀ e, env.fetchTx i = .error e →
      processCandidate env MIN_READ_CONFIRMATIONS i = [.fetchFailed i]) ∧
    (∀ tx e, env.fetchTx i = .ok tx →
      env.submitblock (hexlify tx.data) = .error e →
      processCandidate env MIN_READ_CONFIRMATIONS i =
        [.submitCalled i (hexlify tx.data), .submitFailed i]) := by
  refine ⟨?_, ?_, ?_⟩
  · induction pre with
    | nil => simp [readCandidates]
    | cons j rest ih => simp [readCandidates, ih, List.append_assoc]
  · intro e he
    simp [processCandidate, he]
  · intro tx e hf hs
    simp [processCandidate, hf, MIN_READ_CONFIRMATIONS, hs]

/-- Witness for C9: one oracle whose fetches fail and one whose
submissions fail. -/
theorem read_candidate_error_isolated_w :
    processCandidate readEnvFetchErr MIN_READ_CONFIRMATIONS "bad" =
      [.fetchFailed "bad"] ∧
    processCandidate readEnvSubmitErr MIN_READ_CONFIRMATIONS "t1" =
      [.submitCalled "t1" (hexlify sampleFetched.data), .submitFailed "t1"] :=
  ⟨(read_candidate_error_isolated readEnvFetchErr [] [] "bad").2.1
      (.rpcError "lookup failed") rfl,
   (read_candidate_error_isolated readEnvSubmitErr [] [] "t1").2.2
      sampleFetched (.rpcError "rejected") rfl rfl⟩

/-! ### Lemmas about `genTxAt`, `genList` and `pyRange` -/

/-- Inversion of a successful `genTxAt`: the shape of the built
transaction in terms of the oracle responses. -/
theorem genTxAt_ok (rpc : RpcEnv) (w : WalletEnv) (gargs : Option Args) (h : Int)
    (p : ATransaction × Int) (hp : genTxAt rpc w gargs h = .ok p) :
    ∃ bh hdr blkhex blk a,
      rpc.getblockhash h = .ok bh ∧ rpc.getblockheader bh = .ok hdr ∧
      rpc.getblock bh 0 = .ok blkhex ∧ unhexlify blkhex = .ok blk ∧ gargs = some a ∧
      p = (sign w { id := "", data := blk,
                    tags := addTags a.blockchain h bh hdr.previousblockhash,
                    signed := false }, h) := by
  unfold genTxAt at hp
  split at hp
  · simp at hp
  · rename_i bh h1
    split at hp
    · simp at hp
    · rename_i hdr h2
      split at hp
      · simp at hp
      · rename_i blkhex h3
        split at hp
        · simp at hp
        · rename_i blk h4
          split at hp
          · simp at hp
          · simp only [Except.ok.injEq] at hp
            exact ⟨bh, hdr, blkhex, blk, _, h1, h2, h3, h4, rfl, hp.symm⟩

/-- The height component of a successful `genTxAt` is the queried one. -/
theorem genTxAt_ok_snd {rpc : RpcEnv} {w : WalletEnv} {gargs : Option Args} {h : Int}
    {p : ATransaction × Int} (hp : genTxAt rpc w gargs h = .ok p) : p.2 = h := by
  obtain ⟨bh, hdr, bx, bk, a, _, _, _, _, _, hpe⟩ := genTxAt_ok rpc w gargs h p hp
  rw [hpe]

/-- Every pair collected by `genList` was produced by a successful
`genTxAt` at its own height, a member of the height list. -/
theorem genList_mem (rpc : RpcEnv) (w : WalletEnv) (gargs : Option Args) :
    ∀ (l : List Int) (p : ATransaction × Int), p ∈ (genList rpc w gargs l).1 →
      genTxAt rpc w gargs p.2 = .ok p ∧ p.2 ∈ l := by
  intro l
  induction l with
  | nil => intro p hp; simp [genList] at hp
  | cons hh rest ih =>
    intro p hp
    rcases hg : genTxAt rpc w gargs hh with e | q
    · simp [genList, hg] at hp
    · simp only [genList, hg] at hp
      rcases List.mem_cons.1 hp with h1 | h2
      · subst h1
        have hsnd := genTxAt_ok_snd hg
        constructor
        · rw [hsnd]; exact hg
        · rw [hsnd]; exact List.mem_cons_self hh rest
      · obtain ⟨ha, hb⟩ := ih p h2
        exact ⟨ha, List.mem_cons_of_mem hh hb⟩

/-- When every height succeeds, `genList` yields exactly one pair per
height, in list order, and reports no error. -/
theorem genList_ok (rpc : RpcEnv) (w : WalletEnv) (gargs : Option Args) :
    ∀ l : List Int, (∀ h ∈ l, (genTxAt rpc w gargs h).isOk) →
      (genList rpc w gargs l).1.map Prod.snd = l ∧ (genList rpc w gargs l).2 = none := by
  intro l
  induction l with
  | nil => intro _; simp [genList]
  | cons hh rest ih =>
    intro hall
    have h1 : (genTxAt rpc w gargs hh).isOk := hall hh (List.mem_cons_self hh rest)
    rcases hg : genTxAt rpc w gargs hh with e | q
    · rw [hg] at h1; simp [Except.isOk, Except.toBool] at h1
    · obtain ⟨ha, hb⟩ := ih (fun h hm => hall h (List.mem_cons_of_mem hh hm))
      simp only [genList, hg]
      exact ⟨by simp [ha, genTxAt_ok_snd hg], hb⟩

/-- The heights collected by `genList` are a prefix of the height list. -/
theorem genList_snd_take (rpc : RpcEnv) (w : WalletEnv) (gargs : Option Args) :
    ∀ l : List Int, ∃ n, (genList rpc w gargs l).1.map Prod.snd = l.take n := by
  intro l
  induction l with
  | nil => exact ⟨0, by simp [genList]⟩
  | cons hh rest ih =>
    rcases hg : genTxAt rpc w gargs hh with e | q
    · exact ⟨0, by simp [genList, hg]⟩
    · obtain ⟨n, hn⟩ := ih
      exact ⟨n + 1, by simp [genList, hg, hn, genTxAt_ok_snd hg]⟩

/-- Membership in a Python range. -/
theorem pyRangeAux_mem : ∀ (n : Nat) (a h : Int),
    h ∈ pyRangeAux a n ↔ a ≤ h ∧ h < a + n := by
  intro n
  induction n with
  | zero =>
    intro a h
    rw [pyRangeAux]
    constructor
    · intro hx
      exact absurd hx (List.not_mem_nil h)
    · rintro ⟨h1x, h2x⟩
      omega
  | succ m ih =>
    intro a h
    rw [pyRangeAux, List.mem_cons, ih (a + 1)]
    constructor
    · rintro (rfl | ⟨ha1, ha2⟩) <;> (constructor <;> omega)
    · rintro ⟨ha1, ha2⟩
      by_cases he : h = a
      · exact Or.inl he
      · exact Or.inr ⟨by omega, by omega⟩

/-- A Python range is strictly ascending. -/
theorem pyRangeAux_chain : ∀ (n : Nat) (a : Int),
    List.Chain' (· < ·) (pyRangeAux a n) := by
  intro n
  induction n with
  | zero => intro a; simp [pyRangeAux]
  | succ m ih =>
    intro a
    rw [pyRangeAux]
    refine List.chain'_cons'.2 ⟨?_, ih (a + 1)⟩
    intro y hy
    cases m with
    | zero => simp [pyRangeAux] at hy
    | succ k =>
      rw [pyRangeAux] at hy
      simp only [List.head?_cons, Option.mem_def, Option.some.injEq] at hy
      omega

/-- A failure at height `h0`, with all lower heights succeeding, cuts
the collected heights to exactly those below `h0` and propagates the
error. -/
theorem genList_err (rpc : RpcEnv) (w : WalletEnv) (gargs : Option Args) :
    ∀ (n : Nat) (a h0 : Int) (e : PyErr),
      h0 ∈ pyRangeAux a n → genTxAt rpc w gargs h0 = .error e →
      (∀ h ∈ pyRangeAux a n, h < h0 → (genTxAt rpc w gargs h).isOk) →
      (genList rpc w gargs (pyRangeAux a n)).1.map Prod.snd =
        pyRangeAux a (h0 - a).toNat ∧
      (genList rpc w gargs (pyRangeAux a n)).2 = some e := by
  intro n
  induction n with
  | zero => intro a h0 e hmem; simp [pyRangeAux] at hmem
  | succ m ih =>
    intro a h0 e hmem herr hok
    by_cases hea : h0 = a
    · subst hea
      have h1 : (h0 - h0).toNat = 0 := by omega
      rw [pyRangeAux]
      constructor
      · simp [genList, herr, h1, pyRangeAux]
      · simp [genList, herr]
    · have hmem2 : h0 ∈ pyRangeAux (a + 1) m := by
        rw [pyRangeAux] at hmem
        rcases List.mem_cons.1 hmem with h | h
        · exact absurd h hea
        · exact h
      have hlt : a < h0 := by
        have := (pyRangeAux_mem m (a + 1) h0).1 hmem2
        omega
      have hoka : (genTxAt rpc w gargs a).isOk := by
        refine hok a ?_ hlt
        rw [pyRangeAux]
        exact List.mem_cons_self _ _
      rcases hg : genTxAt rpc w gargs a with e2 | q
      · rw [hg] at hoka; simp [Except.isOk, Except.toBool] at hoka
      · obtain ⟨ha, hb⟩ := ih (a + 1) h0 e hmem2 herr
          (fun h hm hlt2 =>
            hok h (by rw [pyRangeAux]; exact List.mem_cons_of_mem _ hm) hlt2)
        have htn : (h0 - a).toNat = (h0 - (a + 1)).toNat + 1 := by omega
        rw [pyRangeAux]
        constructor
        · simp only [genList, hg, List.map_cons]
          rw [htn, pyRangeAux]
          simp [genTxAt_ok_snd hg, ha]
        · simp only [genList, hg]
          exact hb

/-! ### C6: one signed transaction per height, ascending, fail-fast -/

/-- C6: given `fromHeight ≤ toHeight`, the generator yields exactly
one signed pair per height of `range (fromHeight, toHeight + 1)` in
strictly ascending order when every lookup succeeds, and a lookup
failure at `h0` (all lower heights succeeding) aborts the sequence
after exactly the heights below `h0`, propagating the error. -/
theorem generateTransactions_range (rpc : RpcEnv) (w : WalletEnv) (gargs : Option Args)
    (fromHeight toHeight : Int) (_hle : fromHeight ≤ toHeight) :
    ((∀ h ∈ pyRange fromHeight (toHeight + 1), (genTxAt rpc w gargs h).isOk) →
      (generateTransactions rpc w gargs fromHeight toHeight).1.map Prod.snd =
        pyRange fromHeight (toHeight + 1) ∧
      (generateTransactions rpc w gargs fromHeight toHeight).2 = none) ∧
    List.Chain' (· < ·)
      ((generateTransactions rpc w gargs fromHeight toHeight).1.map Prod.snd) ∧
    (∀ p ∈ (generateTransactions rpc w gargs fromHeight toHeight).1,
      p.1.signed = true) ∧
    (∀ (h0 : Int) (e : PyErr), h0 ∈ pyRange fromHeight (toHeight + 1) →
      genTxAt rpc w gargs h0 = .error e →
      (∀ h ∈ pyRange fromHeight (toHeight + 1), h < h0 →
        (genTxAt rpc w gargs h).isOk) →
      (generateTransactions rpc w gargs fromHeight toHeight).1.map Prod.snd =
        pyRange fromHeight h0 ∧
      (generateTransactions rpc w gargs fromHeight toHeight).2 = some e) := by
  refine ⟨?_, ?_, ?_, ?_⟩
  · intro hall
    exact genList_ok rpc w gargs _ hall
  · obtain ⟨n, hn⟩ := genList_snd_take rpc w gargs (pyRange fromHeight (toHeight + 1))
    rw [generateTransactions, hn]
    exact (pyRangeAux_chain _ _).take n
  · intro p hp
    obtain ⟨hg, _⟩ := genList_mem rpc w gargs _ p hp
    obtain ⟨bh, hdr, bx, bk, a, _, _, _, _, _, hpe⟩ := genTxAt_ok rpc w gargs p.2 p hg
    rw [hpe]
    rfl
  · intro h0 e hmem herr hok
    exact genList_err rpc w gargs ((toHeight + 1) - fromHeight).toNat fromHeight h0 e
      hmem herr hok

/-- Witness for C6: the success case at the one-height range `[1, 1]`
against the concrete oracles. -/
theorem generateTransactions_range_w :
    (generateTransactions sampleRpc sampleWallet (some sampleArgs) 1 1).1.map Prod.snd =
      pyRange 1 2 ∧
    (generateTransactions sampleRpc sampleWallet (some sampleArgs) 1 1).2 = none :=
  (generateTransactions_range sampleRpc sampleWallet (some sampleArgs) 1 1
    (by decide)).1 (by decide)

/-! ### C5: the tag set of every generated transaction -/

/-- C5: every pair yielded by `generateTransactions` carries exactly
the tags `App-Name`, `App-Version`, `Blockchain`, `Block-Height` (the
decimal string of its height), `Block-Hash` (the fetched block hash),
and a single `Previous-Hash` tag equal to the header's reported
previous hash exactly when the height is positive — none at height 0. -/
theorem generateTransactions_tag_set (rpc : RpcEnv) (w : WalletEnv) (a : Args)
    (fromHeight toHeight : Int) (p : ATransaction × Int)
    (hmem : p ∈ (generateTransactions rpc w (some a) fromHeight toHeight).1) :
    p.2 ∈ pyRange fromHeight (toHeight + 1) ∧
    ∃ bh hdr,
      rpc.getblockhash p.2 = .ok bh ∧ rpc.getblockheader bh = .ok hdr ∧
      p.1.tags =
        [("App-Name", APP_NAME), ("App-Version", APP_VERSION),
         ("Blockchain", a.blockchain), ("Block-Height", toString p.2),
         ("Block-Hash", bh)] ++
        (if 0 < p.2 then [("Previous-Hash", hdr.previousblockhash)] else []) ∧
      p.1.tags.filter (fun t => t.1 == "Previous-Hash") =
        (if 0 < p.2 then [("Previous-Hash", hdr.previousblockhash)] else []) := by
  obtain ⟨hg, hin⟩ := genList_mem rpc w (some a) _ p hmem
  refine ⟨hin, ?_⟩
  obtain ⟨bh, hdr, bx, bk, a2, h1, h2, h3, h4, h5, hpe⟩ :=
    genTxAt_ok rpc w (some a) p.2 p hg
  injection h5 with h5
  subst h5
  refine ⟨bh, hdr, h1, h2, ?_, ?_⟩
  · rw [hpe]
    rfl
  · rw [hpe]
    show (addTags a.blockchain p.2 bh hdr.previousblockhash).filter
        (fun t => t.1 == "Previous-Hash") = _
    by_cases hh : 0 < p.2 <;> simp only [addTags, hh, if_true, if_false] <;> rfl

/-- Witness for C5 at the concrete oracles and height 1. -/
theorem generateTransactions_tag_set_w :
    (sampleGenTx, (1 : Int)).2 ∈ pyRange 1 2 ∧
    ∃ bh hdr,
      sampleRpc.getblockhash (sampleGenTx, (1 : Int)).2 = .ok bh ∧
      sampleRpc.getblockheader bh = .ok hdr ∧
      (sampleGenTx, (1 : Int)).1.tags =
        [("App-Name", APP_NAME), ("App-Version", APP_VERSION),
         ("Blockchain", sampleArgs.blockchain),
         ("Block-Height", toString (sampleGenTx, (1 : Int)).2),
         ("Block-Hash", bh)] ++
        (if 0 < (sampleGenTx, (1 : Int)).2
          then [("Previous-Hash", hdr.previousblockhash)] else []) ∧
      (sampleGenTx, (1 : Int)).1.tags.filter (fun t => t.1 == "Previous-Hash") =
        (if 0 < (sampleGenTx, (1 : Int)).2
          then [("Previous-Hash", hdr.previousblockhash)] else []) :=
  generateTransactions_tag_set sampleRpc sampleWallet sampleArgs 1 1
    (sampleGenTx, 1) (by decide)

/-! ### C10: the Blockchain tag comes from the module global `args` -/

/-- C10: the `Blockchain` tag value is read from the module-level
global `args`, not from any state given to the `BlockWriter`
constructor: for any two wallets the built transactions carry the same
tags, equal to the global `args.blockchain` in the `Blockchain` slot,
and generation raises `NameError` on `args` when the global is
undefined (even though every RPC lookup succeeds). -/
theorem blockchain_tag_from_global_args (rpc : RpcEnv) (w1 w2 : WalletEnv) (a : Args)
    (h : Int) (tx1 tx2 : ATransaction)
    (h1 : genTxAt rpc w1 (some a) h = .ok (tx1, h))
    (h2 : genTxAt rpc w2 (some a) h = .ok (tx2, h)) :
    tx1.tags = tx2.tags ∧ ("Blockchain", a.blockchain) ∈ tx1.tags ∧
    (∀ (bh : String) (hdr : Header) (blkhex : String) (blk : List Nat),
      rpc.getblockhash h = .ok bh → rpc.getblockheader bh = .ok hdr →
      rpc.getblock bh 0 = .ok blkhex → unhexlify blkhex = .ok blk →
      genTxAt rpc w1 none h = .error (.nameError "args")) := by
  obtain ⟨bh1, hdr1, bx1, bk1, a1, g1, g2, g3, g4, g5, hpe1⟩ :=
    genTxAt_ok rpc w1 (some a) h (tx1, h) h1
  obtain ⟨bh2, hdr2, bx2, bk2, a2, f1, f2, f3, f4, f5, hpe2⟩ :=
    genTxAt_ok rpc w2 (some a) h (tx2, h) h2
  injection g5 with g5
  subst g5
  injection f5 with f5
  subst f5
  rw [g1] at f1
  injection f1 with f1
  subst f1
  rw [g2] at f2
  injection f2 with f2
  subst f2
  have e1 : tx1 =
      sign w1 ⟨"", bk1, addTags a.blockchain h bh1 hdr1.previousblockhash, false⟩ :=
    congrArg Prod.fst hpe1
  have e2 : tx2 =
      sign w2 ⟨"", bk2, addTags a.blockchain h bh1 hdr1.previousblockhash, false⟩ :=
    congrArg Prod.fst hpe2
  refine ⟨?_, ?_, ?_⟩
  · rw [e1, e2]
    rfl
  · rw [e1]
    show ("Blockchain", a.blockchain) ∈ addTags a.blockchain h bh1 hdr1.previousblockhash
    simp [addTags]
  · intro bh hdr blkhex blk k1 k2 k3 k4
    simp [genTxAt, k1, k2, k3, k4]

/-- Witness for C10 at the concrete oracles and height 1. -/
theorem blockchain_tag_from_global_args_w :
    sampleGenTx.tags = sampleGenTx.tags ∧
    ("Blockchain", sampleArgs.blockchain) ∈ sampleGenTx.tags ∧
    (∀ (bh : String) (hdr : Header) (blkhex : String) (blk : List Nat),
      sampleRpc.getblockhash 1 = .ok bh → sampleRpc.getblockheader bh = .ok hdr →
      sampleRpc.getblock bh 0 = .ok blkhex → unhexlify blkhex = .ok blk →
      genTxAt sampleRpc sampleWallet none 1 = .error (.nameError "args")) :=
  blockchain_tag_from_global_args sampleRpc sampleWallet sampleWallet sampleArgs 1
    sampleGenTx sampleGenTx rfl rfl

end ArBlockStore
